import Mathlib

/-!
# Verification of kubectl-foreach (main.go)

A shallow embedding of the pure logic of `main.go`: argument templating
(`replaceArgs`), suffix trimming of the argument vector (`trimSuffix`),
the worker-pool concurrency bound (`runAll`), output-label construction
(`maxLen` / left padding), the confirmation prompt (`prompt`), parsing of
the provider output (`kubeContexts`), and the post-filter control flow of
`main` (no-match abort, prompt gating on the environment variable and the
`-q` flag). The filter engine (`matchContexts`) is not part of
`src/main.go`; it is modelled from the specification where needed.
-/

namespace KubectlForeach

/-! ## String machinery (Go `strings` package, modelled on `List Char`) -/

/-- One scanning pass of Go `strings.Replace(s, old, new, -1)`, written
with explicit fuel so that the recursion is structural: each step consumes
at least one character of `s` and one unit of fuel, so any fuel of at
least `s.length` computes the full replacement.  When `old` is empty, Go
inserts `new` before every character and at the end. -/
def replaceAllAux (old new : List Char) : Nat → List Char → List Char
  | _, [] => if old = [] then new else []
  | 0, c :: rest => c :: rest
  | fuel + 1, c :: rest =>
    if old = [] then new ++ c :: replaceAllAux old new fuel rest
    else if old.isPrefixOf (c :: rest) then
      new ++ replaceAllAux old new fuel ((c :: rest).drop old.length)
    else
      c :: replaceAllAux old new fuel rest

/-- Go `strings.Replace(s, old, new, -1)`: replace every non-overlapping
occurrence of `old` in `s` by `new`, scanning left to right. -/
def replaceAll (old new s : List Char) : List Char := replaceAllAux old new s.length s

/-- Go `strings.Replace(s, old, new, -1)` lifted to `String`. -/
def strReplace (s old new : String) : String := ⟨replaceAll old.data new.data s.data⟩

/-- Whitespace characters recognised by Go's `unicode.IsSpace` in the
Latin-1 range. -/
def isSpaceChar (c : Char) : Bool :=
  c = ' ' || c = '\t' || c = '\n' || c = '\x0b' || c = '\x0c' || c = '\r' ||
  c = '\x85' || c = '\xa0'

/-- Go `strings.TrimSpace`: drop leading and trailing whitespace. -/
def trimSpace (l : List Char) : List Char :=
  ((l.dropWhile isSpaceChar).reverse.dropWhile isSpaceChar).reverse

/-- Go `strings.Split(s, "\n")`: split at every newline.  The empty string
splits into `[""]` (a one-element list). -/
def splitNewline : List Char → List (List Char)
  | [] => [[]]
  | c :: rest =>
    if c = '\n' then [] :: splitNewline rest
    else
      match splitNewline rest with
      | [] => [[c]]
      | h :: t => (c :: h) :: t

/-! ## `replaceArgs` (src/main.go lines 151-162) -/

/-- `replaceArgs` from `main.go`: given the wrapped kubectl arguments and
the `-I` replacement value, produce the per-context argument builder.
Empty `repl` prepends `--context=<ctx>`; otherwise every occurrence of
`repl` in every argument is replaced by the context name. -/
def replaceArgs (args : List String) (repl : String) : String → List String :=
  fun ctx =>
    if repl = "" then ("--context=" ++ ctx) :: args
    else args.map fun a => strReplace a repl ctx

/-! ## `kubeContexts` (src/main.go lines 164-173) -/

/-- The pure post-processing of `kubeContexts` in `main.go`: the captured
stdout of the provider command is trimmed of surrounding whitespace and
split on newlines. -/
def kubeContexts (captured : String) : List String :=
  (splitNewline (trimSpace captured.data)).map fun l => ⟨l⟩

/-! ## Worker pool bound and output labels (src/main.go lines 175-252) -/

/-- The concurrency bound computed at the top of `runAll`:
`n := len(kubeCtxs); if *workers > 0 { n = *workers }`. -/
def poolLimit (workers : Int) (kubeCtxs : List String) : Int :=
  if workers > 0 then workers else (kubeCtxs.length : Int)

/-- `maxLen` from `main.go`: length of the longest string in the list
(0 for the empty list). -/
def maxLen (s : List String) : Nat :=
  s.foldl (fun m v => if v.length > m then v.length else m) 0

/-- `leftPad` closure inside `runAll`:
`strings.Repeat(" ", maxLen-origLen) + s`, where `maxLen` is fixed once
from the whole match set. -/
def leftPad (padTo : Nat) (s : String) (origLen : Nat) : String :=
  ⟨List.replicate (padTo - origLen) ' '⟩ ++ s

/-- The per-target output label built in `runAll`:
`leftPad(colFn(kctx), len(kctx)) + " | "`, with the pad width taken from
`maxLen kubeCtxs` computed once for the whole match set.  `colFn` is the
color styling function for the target's position. -/
def targetLabel (colFn : String → String) (kubeCtxs : List String) (kctx : String) : String :=
  leftPad (maxLen kubeCtxs) (colFn kctx) kctx.length ++ " | "

/-! ## Confirmation prompt (src/main.go lines 262-288) -/

/-- The result of `prompt` in `main.go`, modelled as Go's `error` value:
`none` is the `nil` error (accepted).  The input is `some line` when a
full line is read before the cancellation signal fires, `none` when
cancellation fires first (the `ctx.Done()` arm of the `select`). -/
def prompt (input : Option String) : Option String :=
  match input with
  | none => some "prompt canceled"
  | some v => if v = "y" || v = "Y" || v = "" then none else some "user refused execution"

/-! ## Post-filter control flow of `main` (src/main.go lines 119-148) -/

/-- Observable steps of `main` after the match set is computed. -/
inductive Event where
  | errorExit (msg : String)
  | printHeader
  | printTargetList
  | showPrompt
  | dispatch
  deriving DecidableEq

/-- The control flow of `main` from line 119 on, as the ordered list of
observable steps: an empty match set aborts at once; otherwise, when the
prompt-disabling environment variable is empty, `-q` prints the target
list and a non-`-q` run prints the header and list and runs the prompt
(aborting on a non-nil prompt error); when the variable is non-empty the
whole block is skipped.  `dispatch` stands for the call to `runAll`. -/
def mainAfterFilter (ctxMatches : List String) (envValue : String) (quiet : Bool)
    (promptInput : Option String) : List Event :=
  if ctxMatches.length = 0 then
    [.errorExit "query matched no contexts from kubeconfig"]
  else if envValue = "" then
    if quiet then [.printTargetList, .dispatch]
    else
      match prompt promptInput with
      | none => [.printHeader, .printTargetList, .showPrompt, .dispatch]
      | some msg => [.printHeader, .printTargetList, .showPrompt, .errorExit msg]
  else [.dispatch]

/-! ## `trimSuffix` (src/main.go lines 290-300) -/

/-- `trimSuffix` from `main.go`: if `suffix` is longer than `a`, return `a`;
otherwise compare the trailing elements of `a` against `suffix` from the
end (the Go loop walks both slices backwards, i.e. it walks the reversed
lists forwards), returning `a` on the first mismatch and `a[:len(a)-len(suffix)]`
when all of them match. -/
def trimSuffix (a suffix : List String) : List String :=
  if suffix.length > a.length then a
  else if suffix.reverse.isPrefixOf a.reverse then a.take (a.length - suffix.length)
  else a

/-! ## Filter engine (modelled from the spec) -/

/-- A filter, abstracted over its matching predicate (Exact / Regex is
irrelevant to the structural claims). -/
structure Filter where
  negate : Bool
  accepts : String → Bool

/-- Modelled from the spec: one left-to-right step of the FilterEngine
(§4.2) — `matchTargets` / `matchContexts` is not in `src/main.go`.  A
non-negating filter adds every raw target whose name matches to the
selected set, preserving raw order with no duplicate insertion; a negating
filter removes every selected target whose name matches. -/
def applyFilter (raw : List String) (selected : List String) (f : Filter) : List String :=
  if f.negate then selected.filter fun c => !(f.accepts c)
  else selected ++ raw.filter fun c => f.accepts c && !(selected.contains c)

/-- Modelled from the spec: the FilterEngine `matchTargets` (§4.2), called
`matchContexts` in the repository but absent from `src/main.go`.  An empty
filter list selects everything; otherwise the selected set starts empty
when at least one non-negating filter exists (else from the full raw
list), the filters are applied left to right, and the final match set is
the raw list restricted to the selected set (raw order, membership). -/
def matchContexts (raw : List String) (filters : List Filter) : List String :=
  if filters.isEmpty then raw
  else
    let init := if filters.any fun f => !f.negate then [] else raw
    let selected := filters.foldl (applyFilter raw) init
    raw.filter fun c => selected.contains c

/-! ## Helper lemmas -/

/-- Boolean `isPrefixOf` agrees with the propositional prefix relation. -/
theorem isPrefixOf_true_iff {α : Type} [BEq α] [LawfulBEq α] (l₁ l₂ : List α) :
    l₁.isPrefixOf l₂ = true ↔ l₁ <+: l₂ := by simp

/-- A prefix occurs within the list (it is an infix occurrence). -/
theorem prefix_to_within {α : Type} {l₁ l₂ : List α} (h : l₁ <+: l₂) : l₁ <:+: l₂ := by
  obtain ⟨t, ht⟩ := h
  exact ⟨[], t, by simpa using ht⟩

/-! ## Claim theorems -/

/-- C2: for every input line read by the confirmation prompt, an empty
line or a line equal exactly to "y" or "Y" yields the nil error; any other
line yields the refused error; and when the cancellation signal fires
before a full line is available (input `none`), the prompt returns the
cancelled error. -/
theorem prompt_spec (line : String) :
    prompt none = some "prompt canceled" ∧
    ((line = "" ∨ line = "y" ∨ line = "Y") → prompt (some line) = none) ∧
    ((line ≠ "" ∧ line ≠ "y" ∧ line ≠ "Y") →
      prompt (some line) = some "user refused execution") := by
  refine ⟨rfl, ?_, ?_⟩
  · rintro (rfl | rfl | rfl) <;> decide
  · rintro ⟨h1, h2, h3⟩
    simp [prompt, h1, h2, h3]

/-- Witness for C2 at the concrete inputs "", "y", "n" and cancellation. -/
theorem prompt_spec_witness :
    prompt (some "") = none ∧ prompt (some "y") = none ∧
    prompt (some "n") = some "user refused execution" ∧
    prompt none = some "prompt canceled" :=
  ⟨(prompt_spec "").2.1 (Or.inl rfl), (prompt_spec "y").2.1 (Or.inr (Or.inl rfl)),
   (prompt_spec "n").2.2 (by decide), (prompt_spec "n").1⟩

/-- C3: for every wrapped-argument list and target, an empty `-I` value
prepends the context-selector argument `--context=<target>`, and a
non-empty `-I` value maps the occurrence replacement over the wrapped
arguments. -/
theorem replaceArgs_spec (args : List String) (repl target : String) :
    (repl = "" → replaceArgs args repl target = ("--context=" ++ target) :: args) ∧
    (repl ≠ "" → replaceArgs args repl target = args.map fun a => strReplace a repl target) := by
  constructor <;> intro h <;> simp [replaceArgs, h]

/-- Witness for C3: both branches evaluated at concrete inputs. -/
theorem replaceArgs_spec_witness :
    replaceArgs ["get", "pods"] "" "c1" = ["--context=c1", "get", "pods"] ∧
    replaceArgs ["get", "_x_"] "_x_" "c1" = ["get", "c1"] := by
  constructor
  · rw [(replaceArgs_spec ["get", "pods"] "" "c1").1 rfl]
    decide
  · rw [(replaceArgs_spec ["get", "_x_"] "_x_" "c1").2 (by decide)]
    decide

/-- C4: the worker-pool bound is the caller-supplied `-c` limit when that
limit is positive, and the number of matched targets when the limit is
zero. -/
theorem poolLimit_spec (workers : Int) (kubeCtxs : List String) :
    (0 < workers → poolLimit workers kubeCtxs = workers) ∧
    (workers = 0 → poolLimit workers kubeCtxs = (kubeCtxs.length : Int)) := by
  constructor <;> intro h <;> simp [poolLimit, h]

/-- Witness for C4 at a positive limit and at limit zero. -/
theorem poolLimit_spec_witness :
    poolLimit 2 ["a", "b", "c"] = 2 ∧
    poolLimit 0 ["a", "b", "c"] = (["a", "b", "c"].length : Int) :=
  ⟨(poolLimit_spec 2 ["a", "b", "c"]).1 (by decide),
   (poolLimit_spec 0 ["a", "b", "c"]).2 rfl⟩

/-- C6: an empty match set makes `main` abort at once with the no-match
error; no confirmation prompt is shown and no task is dispatched. -/
theorem mainAfterFilter_noMatch (envValue : String) (quiet : Bool)
    (promptInput : Option String) :
    mainAfterFilter [] envValue quiet promptInput =
      [Event.errorExit "query matched no contexts from kubeconfig"] ∧
    Event.showPrompt ∉ mainAfterFilter [] envValue quiet promptInput ∧
    Event.dispatch ∉ mainAfterFilter [] envValue quiet promptInput := by
  refine ⟨rfl, ?_, ?_⟩ <;> simp [mainAfterFilter]

/-- C1 (counterexample): with the prompt-disabling environment variable
set to "1" and a non-empty match set, `main` does not print the target
list at all — refuting the claim that the list is still printed as with
`-q`. -/
theorem mainAfterFilter_env_set_cex :
    Event.printTargetList ∉ mainAfterFilter ["c1"] "1" false (some "") := by decide

/-- C1 (amended): when the prompt-disabling environment variable is
non-empty and the match set is non-empty, the entire confirmation block is
skipped — no prompt is shown, but unlike `-q` the target list is not
printed either; execution proceeds straight to dispatch. -/
theorem mainAfterFilter_env_disables_gate (ctxMatches : List String) (envValue : String)
    (quiet : Bool) (promptInput : Option String)
    (h1 : ctxMatches ≠ []) (h2 : envValue ≠ "") :
    mainAfterFilter ctxMatches envValue quiet promptInput = [Event.dispatch] := by
  unfold mainAfterFilter
  rw [if_neg (by simpa using h1), if_neg h2]

/-- Witness for the amended C1 at a concrete non-empty environment value. -/
theorem mainAfterFilter_env_disables_gate_witness :
    mainAfterFilter ["c1"] "1" false none = [Event.dispatch] :=
  mainAfterFilter_env_disables_gate ["c1"] "1" false none (by decide) (by decide)

/-- The running maximum in the `maxLen` loop never decreases. -/
theorem maxLen_foldl_le_init (l : List String) (m : Nat) :
    m ≤ l.foldl (fun acc v => if v.length > acc then v.length else acc) m := by
  induction l generalizing m with
  | nil => exact Nat.le_refl m
  | cons x xs ih =>
    simp only [List.foldl_cons]
    refine Nat.le_trans ?_ (ih _)
    split <;> omega

/-- Every member's length is bounded by the `maxLen` loop result. -/
theorem length_le_maxLen_foldl {x : String} :
    ∀ (l : List String) (m : Nat), x ∈ l →
      x.length ≤ l.foldl (fun acc v => if v.length > acc then v.length else acc) m := by
  intro l
  induction l with
  | nil => intro m hx; cases hx
  | cons y ys ih =>
    intro m hx
    simp only [List.foldl_cons]
    rcases List.mem_cons.mp hx with rfl | h
    · refine Nat.le_trans ?_ (maxLen_foldl_le_init ys _)
      split <;> omega
    · exact ih _ h

/-- No target name in the match set is longer than `maxLen`. -/
theorem length_le_maxLen {x : String} {l : List String} (hx : x ∈ l) :
    x.length ≤ maxLen l :=
  length_le_maxLen_foldl l 0 hx

/-- C5: for every target in the match set, the output label is the styled
target name left-padded with `maxLen - len(name)` spaces followed by the
separator " | ", and the pad plus the raw name length is exactly the width
of the longest name in the match set — the single pad width `maxLen` fixed
once for the whole set. -/
theorem targetLabel_spec (colFn : String → String) (kubeCtxs : List String) (kctx : String)
    (h : kctx ∈ kubeCtxs) :
    targetLabel colFn kubeCtxs kctx =
      (⟨List.replicate (maxLen kubeCtxs - kctx.length) ' '⟩ : String) ++ colFn kctx ++ " | " ∧
    maxLen kubeCtxs - kctx.length + kctx.length = maxLen kubeCtxs := by
  refine ⟨rfl, ?_⟩
  have := length_le_maxLen h
  omega

/-- Witness for C5 at a two-target match set. -/
theorem targetLabel_spec_witness :
    "a" ∈ ["a", "abc"] ∧
    targetLabel (fun s => s) ["a", "abc"] "a" =
      (⟨List.replicate (maxLen ["a", "abc"] - "a".length) ' '⟩ : String) ++ "a" ++ " | " ∧
    maxLen ["a", "abc"] - "a".length + "a".length = maxLen ["a", "abc"] :=
  ⟨by decide,
   (targetLabel_spec (fun s => s) ["a", "abc"] "a" (by decide)).1,
   (targetLabel_spec (fun s => s) ["a", "abc"] "a" (by decide)).2⟩

/-- C9: `trimSuffix` satisfies the round trip `trimSuffix (a ++ s) s = a`,
and returns `a` unchanged whenever `s` is not an element-wise suffix of
`a` (including when `s` is longer than `a`). -/
theorem trimSuffix_spec (a s : List String) :
    trimSuffix (a ++ s) s = a ∧ (¬ s <:+ a → trimSuffix a s = a) := by
  constructor
  · have hlen : ¬ s.length > (a ++ s).length := by
      simp only [List.length_append, gt_iff_lt]
      omega
    have hpre : s.reverse.isPrefixOf (a ++ s).reverse = true := by
      rw [isPrefixOf_true_iff, List.reverse_append]
      exact List.prefix_append _ _
    unfold trimSuffix
    rw [if_neg hlen, if_pos hpre, List.length_append, Nat.add_sub_cancel, List.take_left]
  · intro h
    unfold trimSuffix
    split
    · rfl
    · rw [if_neg]
      intro hp
      simp only [isPrefixOf_true_iff] at hp
      simp only [List.reverse_prefix] at hp
      exact h hp

/-- Witness for C9 at concrete argument vectors. -/
theorem trimSuffix_spec_witness :
    trimSuffix (["a", "b"] ++ ["--", "x"]) ["--", "x"] = ["a", "b"] ∧
    trimSuffix ["a", "b"] ["x"] = ["a", "b"] :=
  ⟨(trimSuffix_spec ["a", "b"] ["--", "x"]).1,
   (trimSuffix_spec ["a", "b"] ["x"]).2 (by decide)⟩

/-- `replaceAllAux` leaves the list unchanged when the pattern occurs
nowhere in it. -/
theorem replaceAllAux_no_occurrence (old new : List Char) (hold : old ≠ []) :
    ∀ (fuel : Nat) (s : List Char), ¬ old <:+: s → replaceAllAux old new fuel s = s := by
  intro fuel
  induction fuel with
  | zero =>
    intro s _
    cases s with
    | nil => simp [replaceAllAux, hold]
    | cons c rest => rfl
  | succ n ih =>
    intro s h
    cases s with
    | nil => simp [replaceAllAux, hold]
    | cons c rest =>
      have hnp : ¬ old.isPrefixOf (c :: rest) = true := by
        intro hp
        exact h (prefix_to_within ((isPrefixOf_true_iff _ _).mp hp))
      have hrest : ¬ old <:+: rest := fun hinf => h (List.infix_cons hinf)
      simp only [replaceAllAux]
      rw [if_neg hold, if_neg hnp, ih rest hrest]

/-- `strReplace` is the identity when the pattern does not occur in the
string. -/
theorem strReplace_no_occurrence (a repl target : String) (hrepl : repl.data ≠ [])
    (h : ¬ repl.data <:+: a.data) : strReplace a repl target = a := by
  unfold strReplace replaceAll
  rw [replaceAllAux_no_occurrence repl.data target.data hrepl a.data.length a.data h]

/-- Mapping the occurrence replacement over arguments that contain no
occurrence of the pattern is the identity. -/
theorem map_strReplace_id (repl target : String) (hdata : repl.data ≠ []) :
    ∀ (args : List String), (∀ a ∈ args, ¬ repl.data <:+: a.data) →
      args.map (fun a => strReplace a repl target) = args := by
  intro args
  induction args with
  | nil => intro _; rfl
  | cons x xs ih =>
    intro habs
    simp only [List.map_cons]
    rw [strReplace_no_occurrence x repl target hdata (habs x (List.mem_cons_self x xs)),
        ih (fun a ha => habs a (List.mem_cons_of_mem x ha))]

/-- A non-empty string has a non-empty character list. -/
theorem data_ne_nil_of_ne_empty {repl : String} (hrepl : repl ≠ "") : repl.data ≠ [] := by
  intro hd
  apply hrepl
  cases repl with
  | mk d =>
    cases hd
    rfl

/-- C10: when the `-I` value is non-empty but occurs in none of the
wrapped arguments, the built argument vector is the wrapped arguments
unchanged for every target (no context-selector argument is added), so any
two targets run the exact same command line. -/
theorem replaceArgs_no_occurrence (args : List String) (repl : String)
    (hrepl : repl ≠ "") (habs : ∀ a ∈ args, ¬ repl.data <:+: a.data) :
    (∀ target, replaceArgs args repl target = args) ∧
    (∀ t1 t2, replaceArgs args repl t1 = replaceArgs args repl t2) := by
  have key : ∀ target, replaceArgs args repl target = args := by
    intro target
    unfold replaceArgs
    rw [if_neg hrepl]
    exact map_strReplace_id repl target (data_ne_nil_of_ne_empty hrepl) args habs
  exact ⟨key, fun t1 t2 => (key t1).trans (key t2).symm⟩

/-- Witness for C10 with a pattern absent from both arguments. -/
theorem replaceArgs_no_occurrence_witness :
    replaceArgs ["get", "pods"] "_x_" "c1" = ["get", "pods"] ∧
    replaceArgs ["get", "pods"] "_x_" "c1" = replaceArgs ["get", "pods"] "_x_" "c2" :=
  ⟨(replaceArgs_no_occurrence ["get", "pods"] "_x_" (by decide) (by decide)).1 "c1",
   (replaceArgs_no_occurrence ["get", "pods"] "_x_" (by decide) (by decide)).2 "c1" "c2"⟩

/-- `splitNewline` never returns the empty list of fields. -/
theorem splitNewline_ne_nil : ∀ l : List Char, splitNewline l ≠ [] := by
  intro l
  induction l with
  | nil => simp [splitNewline]
  | cons c rest ih =>
    unfold splitNewline
    split
    · simp
    · cases hr : splitNewline rest <;> simp

/-- An all-whitespace character list trims to nothing. -/
theorem trimSpace_all_space (l : List Char) (h : ∀ c ∈ l, isSpaceChar c) :
    trimSpace l = [] := by
  unfold trimSpace
  rw [List.dropWhile_eq_nil_iff.mpr h]
  rfl

/-- C8: the provider wrapper never yields a zero-length target list, and
empty or whitespace-only captured output yields the one-element list
containing the empty string. -/
theorem kubeContexts_spec (captured : String) :
    kubeContexts captured ≠ [] ∧
    ((∀ c ∈ captured.data, isSpaceChar c) → kubeContexts captured = [""]) := by
  constructor
  · unfold kubeContexts
    simp only [ne_eq, List.map_eq_nil_iff]
    exact splitNewline_ne_nil _
  · intro h
    unfold kubeContexts
    rw [trimSpace_all_space _ h]
    rfl

/-- Witness for C8 at a whitespace-only captured output. -/
theorem kubeContexts_spec_witness : kubeContexts " \n " = [""] :=
  (kubeContexts_spec " \n ").2 (by decide)

/-- C7 (counterexample): with a raw list that itself contains duplicates
and an empty filter list, the match set keeps the duplicates, refuting the
claim for arbitrary raw lists. -/
theorem matchContexts_dup_cex : ¬ (matchContexts ["a", "a"] []).Nodup := by decide

/-- C7 (amended): for every duplicate-free raw target list and every
ordered filter list, the match set contains no duplicates, is a
subsequence of the raw list in its original order, and never contains a
name absent from the raw list. -/
theorem matchContexts_spec (raw : List String) (filters : List Filter)
    (hraw : raw.Nodup) :
    (matchContexts raw filters).Nodup ∧
    List.Sublist (matchContexts raw filters) raw ∧
    ∀ x ∈ matchContexts raw filters, x ∈ raw := by
  unfold matchContexts
  split
  · exact ⟨hraw, List.Sublist.refl raw, fun x hx => hx⟩
  · refine ⟨hraw.filter _, List.filter_sublist raw, ?_⟩
    intro x hx
    exact (List.filter_sublist raw).subset hx

/-- Witness for the amended C7 at a concrete raw list and one inclusion
filter. -/
theorem matchContexts_spec_witness :
    (["a", "b", "c"] : List String).Nodup ∧
    (matchContexts ["a", "b", "c"] [⟨false, fun s => s == "b"⟩]).Nodup ∧
    List.Sublist (matchContexts ["a", "b", "c"] [⟨false, fun s => s == "b"⟩]) ["a", "b", "c"] :=
  ⟨by decide,
   (matchContexts_spec ["a", "b", "c"] [⟨false, fun s => s == "b"⟩] (by decide)).1,
   (matchContexts_spec ["a", "b", "c"] [⟨false, fun s => s == "b"⟩] (by decide)).2.1⟩

end KubectlForeach
